import Mathlib

/-!
Verification of the FancyDownloader synchronization engine
(`src/FancyDownloader.py`) against its natural-language specification.

The development shallowly embeds the script: the local mirror directory is an
explicit `FS` value threaded through every operation, the wiki is a `Remote`
value, Python exceptions become `Except DlError`, and `main` becomes the pure
function `mainRun` composed from one definition per pass of the script.
-/

set_option maxRecDepth 4000

namespace FancyDownloader

/-! ### Name codec

`WikiPagenameToWindowsFilename` / `WindowsFilenameToWikiPagename` are imported
by the script from the external `HelpersPackage` module, which is not part of
this repository's sources. -/

/-- Modelled from the spec: helper for the external `WikiPagenameToWindowsFilename`.
Spec section 4.1: each illegal filesystem character (one of asterisk, slash,
question mark, double quote, angle brackets, backslash, pipe, colon) is replaced
by a unique multi-character escape token delimited by the escape marker, and the
escape marker itself (a semicolon, per the comment at `src/FancyDownloader.py:139`)
is escaped first so that encoding is injective. -/
def encodeChar (c : Char) : List Char :=
  if c = ';' then [';', '0', ';']
  else if c = '*' then [';', '1', ';']
  else if c = '/' then [';', '2', ';']
  else if c = '?' then [';', '3', ';']
  else if c = '"' then [';', '4', ';']
  else if c = '<' then [';', '5', ';']
  else if c = '>' then [';', '6', ';']
  else if c = '\\' then [';', '7', ';']
  else if c = '|' then [';', '8', ';']
  else if c = ':' then [';', '9', ';']
  else [c]

/-- Modelled from the spec: the inverse mapping for one escape-token body. -/
def escMap (d : Char) : Char :=
  if d = '0' then ';'
  else if d = '1' then '*'
  else if d = '2' then '/'
  else if d = '3' then '?'
  else if d = '4' then '"'
  else if d = '5' then '<'
  else if d = '6' then '>'
  else if d = '7' then '\\'
  else if d = '8' then '|'
  else if d = '9' then ':'
  else d

/-- Modelled from the spec: helper for the external `WindowsFilenameToWikiPagename`;
undoes the escape tokens produced by `encodeChar`. -/
def decodeChars : List Char → List Char
  | [] => []
  | [c] => [c]
  | [c, d] => [c, d]
  | c :: d :: e :: rest =>
    if c = ';' ∧ e = ';' then escMap d :: decodeChars rest
    else c :: decodeChars (d :: e :: rest)

/-- Modelled from the spec: `WikiPagenameToWindowsFilename` (external `HelpersPackage`),
the total injective encoding from a wiki page name to a filesystem-safe name. -/
def WikiPagenameToWindowsFilename (s : String) : String :=
  String.mk ((s.data.map encodeChar).flatten)

/-- Modelled from the spec: `WindowsFilenameToWikiPagename` (external `HelpersPackage`),
the inverse decoding used when inferring page names from local file names. -/
def WindowsFilenameToWikiPagename (s : String) : String :=
  String.mk (decodeChars s.data)

/-! ### Association-list helpers for the modelled directory -/

/-- Overwrite the value stored at key `k` (every entry with that key), leaving
other entries alone.  Mirrors assignment to an existing Python dict key /
overwriting an existing file. -/
def setKey {β : Type} (l : List (String × β)) (k : String) (v : β) : List (String × β) :=
  l.map (fun kv => if kv.1 = k then (k, v) else kv)

/-- Create-or-overwrite: overwrite when the key is present, append otherwise.
Mirrors writing a file into a directory. -/
def upsert {β : Type} (l : List (String × β)) (k : String) (v : β) : List (String × β) :=
  if (l.lookup k).isSome then setKey l k v else l ++ [(k, v)]

/-- Delete every entry with key `k`.  Mirrors `os.remove`. -/
def removeKey {β : Type} (l : List (String × β)) (k : String) : List (String × β) :=
  l.filter (fun kv => !(kv.1 == k))

/-- Keep the first occurrence of each name; models Python `list(set(...))`
(whose membership is what the script relies on). -/
def dedupNames : List String → List String
  | [] => []
  | n :: rest => n :: (dedupNames rest).filter (fun m => !(m == n))

/-! ### Data model -/

/-- One record of the `fancy.recentchanges()` feed
(`src/FancyDownloader.py:96-99`): a page title, the modification timestamp and
the old/new length metadata used to spot never-created pages. -/
structure ChangeEvent where
  title : String
  timestamp : Nat
  oldlen : Nat
  newlen : Nat
  deriving DecidableEq

/-- The local mirror directory: `<name>.txt` sources, `<name>.xml` metadata
(`none` models an xml file whose `timestamp` element is absent), and the
attachment files downloaded for file pages. -/
structure FS where
  txtFiles : List (String × String)
  xmlFiles : List (String × Option Nat)
  attachFiles : List String
  deriving DecidableEq

/-- One page as served by the wiki: its source text (absent text models
`page.text is None`), the latest-revision timestamp, and the file-page flag. -/
structure RemotePage where
  text : Option String
  timestamp : Nat
  isFilePage : Bool
  deriving DecidableEq

/-- The remote wiki as seen through pywikibot: fetchable pages, plus the names
whose fetch raises a transient network/API exception. -/
structure Remote where
  pages : List (String × RemotePage)
  fetchFails : List String
  deriving DecidableEq

/-- The Python exceptions that can escape `DownloadPage` or `main`:
`badMetadata` is the `AttributeError` raised at `src/FancyDownloader.py:333`
when `doc.find("timestamp")` returns `None`; `network` is a transient
pywikibot/network error during the fetch; `missingPage` is the error raised by
the `latest_revision` access in `SaveMetadata` for a page that does not exist;
`indexError` is the `IndexError` raised at `src/FancyDownloader.py:121` by
`recentWikiPages[-1]` when the deduplicated recent-changes list is empty. -/
inductive DlError where
  | badMetadata (filename : String)
  | network (pagename : String)
  | missingPage (pagename : String)
  | indexError
  deriving DecidableEq

/-! ### Deduplicator (src/FancyDownloader.py:106-113) -/

/-- One step of the dedup loop: `if pagename not in tempDict.keys() or
p["timestamp"] > tempDict[pagename]["timestamp"]: tempDict[pagename]=p`. -/
def dedupInsert (tempDict : List (String × ChangeEvent)) (p : ChangeEvent) :
    List (String × ChangeEvent) :=
  match tempDict.lookup p.title with
  | none => tempDict ++ [(p.title, p)]
  | some q => if q.timestamp < p.timestamp then setKey tempDict p.title p else tempDict

/-- The whole dedup pass over the recent-changes list, in arrival order. -/
def deduplicate (events : List ChangeEvent) : List (String × ChangeEvent) :=
  events.foldl dedupInsert []

/-- Reference recursion describing what the dedup loop keeps for one page name:
starting from `cur`, an event replaces the current one only when its timestamp
is strictly greater, so the event kept for a name is the first arrival that
attains the maximal timestamp (ties keep the earlier event). -/
def latestKept (cur : Option ChangeEvent) : List ChangeEvent → Option ChangeEvent
  | [] => cur
  | e :: es =>
    match cur with
    | none => latestKept (some e) es
    | some c => if c.timestamp < e.timestamp then latestKept (some e) es else latestKept (some c) es

/-! ### Recency ordering (src/FancyDownloader.py:117-120) -/

/-- Insert into a descending-by-timestamp list, after any equal timestamps
(so the overall sort is stable, like Python `sorted(..., reverse=True)`). -/
def insertDesc (p : ChangeEvent) : List ChangeEvent → List ChangeEvent
  | [] => [p]
  | q :: rest => if q.timestamp < p.timestamp then p :: q :: rest else q :: insertDesc p rest

/-- `sorted(recentWikiPages, key=sorttime, reverse=True)`. -/
def sortByTimestampDesc (l : List ChangeEvent) : List ChangeEvent :=
  l.foldl (fun acc p => insertDesc p acc) []

/-! ### Created / uncreated page names (src/FancyDownloader.py:124-130) -/

/-- Titles of recent events with `oldlen == 0 and newlen == 0`: pages referenced
on the wiki but never created. -/
def uncreatedTitles (recent : List ChangeEvent) : List String :=
  (recent.filter (fun v => v.oldlen == 0 && v.newlen == 0)).map (fun v => v.title)

/-- `list(set(recentWikiPagenames)-set(uncreatedWikiPagenames))`. -/
def createdTitles (recent : List ChangeEvent) : List String :=
  (dedupNames (recent.map (fun v => v.title))).filter
    (fun t => !((uncreatedTitles recent).contains t))

/-! ### Local inventory (src/FancyDownloader.py:140-161) -/

/-- Names (without extension) of the `.txt` files in the mirror directory. -/
def localFilenamesTxt (fs : FS) : List String := fs.txtFiles.map (fun kv => kv.1)

/-- Names (without extension) of the `.xml` files in the mirror directory. -/
def localFilenamesXml (fs : FS) : List String := fs.xmlFiles.map (fun kv => kv.1)

/-- Python `list(set(a) & set(b))` (membership view). -/
def interNames (a b : List String) : List String :=
  (dedupNames a).filter (fun n => b.contains n)

/-- Python `list(set(a) ^ set(b))` (membership view): names in exactly one of
the two sets. -/
def symDiffNames (a b : List String) : List String :=
  (dedupNames a).filter (fun n => !(b.contains n)) ++ (dedupNames b).filter (fun n => !(a.contains n))

/-- Names that have both a `.txt` and a `.xml` artifact
(`localFilenames`, src/FancyDownloader.py:144). -/
def localFilenames (fs : FS) : List String :=
  interNames (localFilenamesTxt fs) (localFilenamesXml fs)

/-- The prefix filter of src/FancyDownloader.py:149 that drops per-run
log/report artifacts from the incomplete-download set. -/
def isLogFile (p : String) : Bool :=
  p.startsWith "Log 202" || p.startsWith "Error 202"

/-- `partialLocalFilenames` before the log filter (src/FancyDownloader.py:148):
the symmetric difference of the `.txt`-name set and the `.xml`-name set. -/
def incompleteLocalFilenamesRaw (fs : FS) : List String :=
  symDiffNames (localFilenamesTxt fs) (localFilenamesXml fs)

/-- `partialLocalFilenames` after the log filter (src/FancyDownloader.py:149). -/
def incompleteLocalFilenames (fs : FS) : List String :=
  (incompleteLocalFilenamesRaw fs).filter (fun p => !(isLogFile p))

/-- `localPagenamesSet` (src/FancyDownloader.py:161): wiki page names inferred
from the complete local records by decoding their file names. -/
def localPagenames (fs : FS) : List String :=
  dedupNames ((localFilenames fs).map WindowsFilenameToWikiPagename)

/-- `missingLocalPagenames = wikiPagenamesSet - localPagenamesSet`
(src/FancyDownloader.py:163). -/
def missingLocalPagenames (wikiPagenames : List String) (fs : FS) : List String :=
  (dedupNames wikiPagenames).filter (fun n => !((localPagenames fs).contains n))

/-- `deletedWikiPagenames = localPagenamesSet - wikiPagenamesSet`
(src/FancyDownloader.py:169). -/
def deletedWikiPagenames (wikiPagenames : List String) (fs : FS) : List String :=
  (localPagenames fs).filter (fun n => !(wikiPagenames.contains n))

/-! ### DownloadPage (src/FancyDownloader.py:317-373) -/

/-- Python `wikiPagename.split(":")` keeping the part after the colon
(used only for file pages). -/
def colonTail (s : String) : String :=
  ((s.splitOn ":").drop 1).headD s

/-- The unconditional download part of `DownloadPage`
(src/FancyDownloader.py:348-373): fetch the page (which may raise), write or
remove the `.txt` artifact, write the `.xml` metadata artifact (whose
`timestamp` element is the latest-revision timestamp), and for file pages also
download the attached file. -/
def doDownload (fancy : Remote) (fs : FS) (wikiPagename : String) (localFilename : String) :
    Except DlError (Bool × FS) :=
  if fancy.fetchFails.contains wikiPagename then .error (.network wikiPagename)
  else
    match fancy.pages.lookup wikiPagename with
    | none => .error (.missingPage wikiPagename)
    | some page =>
      let fs1 : FS :=
        match page.text with
        | some t => { fs with txtFiles := upsert fs.txtFiles localFilename t }
        | none => { fs with txtFiles := removeKey fs.txtFiles localFilename }
      let fs2 : FS := { fs1 with xmlFiles := upsert fs1.xmlFiles localFilename (some page.timestamp) }
      let fs3 : FS :=
        if page.isFilePage then { fs2 with attachFiles := fs2.attachFiles ++ [colonTail wikiPagename] }
        else fs2
      .ok (true, fs3)

/-- `DownloadPage(fancy, wikiPagename, pageData)` (src/FancyDownloader.py:317).
With change data present it first runs the staleness check of lines 329-340:
no local `.xml` means download; an `.xml` without a `timestamp` element raises
(`doc.find("timestamp").text` on `None`); otherwise the page is skipped exactly
when `wikiTimestamp <= localTimestamp`.  With `pageData = None` the check is
bypassed and the download is forced. -/
def DownloadPage (fancy : Remote) (fs : FS) (wikiPagename : String)
    (pageData : Option ChangeEvent) : Except DlError (Bool × FS) :=
  let localFilename := WikiPagenameToWindowsFilename wikiPagename
  match pageData with
  | some pd =>
    match fs.xmlFiles.lookup localFilename with
    | some (some localTimestamp) =>
      if pd.timestamp ≤ localTimestamp then .ok (false, fs)
      else doDownload fancy fs wikiPagename localFilename
    | some none => .error (.badMetadata localFilename)
    | none => doDownload fancy fs wikiPagename localFilename
  | none => doDownload fancy fs wikiPagename localFilename

/-- `true` exactly on the up-to-date skip path of `DownloadPage`. -/
def isSkip (r : Except DlError (Bool × FS)) : Bool :=
  match r with
  | .ok (false, _) => true
  | _ => false

/-! ### The three passes of main -/

/-- A loop `for pname in names: DownloadPage(fancy, pname, None)` counting
successes and `False` results, with any exception propagating
(src/FancyDownloader.py:156-157 and 181-185). -/
def downloadAll (fancy : Remote) : List String → Nat → Nat → FS → Except DlError (Nat × Nat × FS)
  | [], ok, nok, fs => .ok (ok, nok, fs)
  | n :: rest, ok, nok, fs =>
    match DownloadPage fancy fs n none with
    | .error e => .error e
    | .ok (true, fs1) => downloadAll fancy rest (ok + 1) nok fs1
    | .ok (false, fs1) => downloadAll fancy rest ok (nok + 1) fs1

/-- The recency walk of src/FancyDownloader.py:203-215.  `countUpToDatePages`
is incremented on every `False` result and the walk breaks when
`0 < stoppingCriterion < countUpToDatePages`; the counter is never reset.
Returns `(countDownloadedPages, countUpToDatePages, fs)`. -/
def walkRecent (fancy : Remote) (sc : Nat) (created : List String) :
    List ChangeEvent → Nat → Nat → FS → Except DlError (Nat × Nat × FS)
  | [], cd, cu, fs => .ok (cd, cu, fs)
  | p :: rest, cd, cu, fs =>
    if created.contains p.title then
      match DownloadPage fancy fs p.title (some p) with
      | .error e => .error e
      | .ok (true, fs1) => walkRecent fancy sc created rest (cd + 1) cu fs1
      | .ok (false, fs1) =>
        if 0 < sc ∧ sc < cu + 1 then .ok (cd, cu + 1, fs1)
        else walkRecent fancy sc created rest cd (cu + 1) fs1
    else walkRecent fancy sc created rest cd cu fs

/-- The body of one iteration of the deletion loop
(src/FancyDownloader.py:241-257): remove the page's `.xml` and `.txt` artifacts
when present; the flag records whether at least one file was deleted. -/
def deleteOne (fs : FS) (fname : String) : Bool × FS :=
  let hasXml := (fs.xmlFiles.lookup fname).isSome
  let fsa : FS := if hasXml then { fs with xmlFiles := removeKey fs.xmlFiles fname } else fs
  let hasTxt := (fsa.txtFiles.lookup fname).isSome
  let fsb : FS := if hasTxt then { fsa with txtFiles := removeKey fsa.txtFiles fname } else fsa
  (hasXml || hasTxt, fsb)

/-- The deletion pass of src/FancyDownloader.py:240-257: for each deleted page
name remove its `.xml` and `.txt` artifacts, counting pages where at least one
file existed and pages where neither could be found. -/
def deletePages : List String → Nat → Nat → FS → Nat × Nat × FS
  | [], cDel, cUndel, fs => (cDel, cUndel, fs)
  | pname :: rest, cDel, cUndel, fs =>
    let r := deleteOne fs (WikiPagenameToWindowsFilename pname)
    if r.1 then deletePages rest (cDel + 1) cUndel r.2
    else deletePages rest cDel (cUndel + 1) r.2

/-! ### main (src/FancyDownloader.py:30-266) -/

/-- The external inputs of one run: the `allpages` enumeration, the
`recentchanges` feed in arrival order, the fetchable remote state, the initial
mirror directory, and the stopping criterion (`500` in the script). -/
structure RunInput where
  wikiPagenames : List String
  recentChanges : List ChangeEvent
  fancy : Remote
  fs0 : FS
  stoppingCriterion : Nat
  deriving DecidableEq

/-- The observable outcome of a completed run: the final mirror directory and
the counts reported by the script. -/
structure RunResult where
  fs : FS
  countMissingPages : Nat
  countStillMissingPages : Nat
  countDownloadedPages : Nat
  countUpToDatePages : Nat
  countOfDeletedPages : Nat
  countOfUndeletedPages : Nat
  deriving DecidableEq

/-- The whole of `main` after the wiki enumeration: dedup and sort the change
feed — logging the oldest listed change, where `recentWikiPages[-1]` at
`src/FancyDownloader.py:121` raises an uncaught `IndexError` if the
deduplicated feed is empty —, list the local directory once (before any
download of the run), download the incomplete pages, download the missing
pages, run the recency walk, and finally delete the pages that are no longer
on the wiki.  Any exception raised by a `DownloadPage` call propagates and
aborts the run (there is no handler in the script). -/
def mainRun (inp : RunInput) : Except DlError RunResult :=
  let recentDeduped := sortByTimestampDesc ((deduplicate inp.recentChanges).map Prod.snd)
  if recentDeduped.isEmpty then .error .indexError
  else do
    let created := createdTitles recentDeduped
    let incomplete := incompleteLocalFilenames inp.fs0
    let missing := missingLocalPagenames inp.wikiPagenames inp.fs0
    let deleted := deletedWikiPagenames inp.wikiPagenames inp.fs0
    let (_, _, fsA) ← downloadAll inp.fancy incomplete 0 0 inp.fs0
    let (cm, csm, fsB) ← downloadAll inp.fancy missing 0 0 fsA
    let (cd, cu, fsC) ← walkRecent inp.fancy inp.stoppingCriterion created recentDeduped 0 0 fsB
    let (cDel, cUndel, fsD) := deletePages deleted 0 0 fsC
    .ok { fs := fsD, countMissingPages := cm, countStillMissingPages := csm,
          countDownloadedPages := cd, countUpToDatePages := cu,
          countOfDeletedPages := cDel, countOfUndeletedPages := cUndel }

/-- Formalisation of claim C9's wording (not of the code): the deletion set the
pass would use if the local inventory snapshot were taken after all fetches of
the run, i.e. the set-difference recomputed on the directory state left by the
three download passes (replaying main's stages, including the empty-feed
`IndexError` of `src/FancyDownloader.py:121`). -/
def deletedNamesPostFetch (inp : RunInput) : Except DlError (List String) :=
  let recentDeduped := sortByTimestampDesc ((deduplicate inp.recentChanges).map Prod.snd)
  if recentDeduped.isEmpty then .error .indexError
  else do
    let created := createdTitles recentDeduped
    let incomplete := incompleteLocalFilenames inp.fs0
    let missing := missingLocalPagenames inp.wikiPagenames inp.fs0
    let (_, _, fsA) ← downloadAll inp.fancy incomplete 0 0 inp.fs0
    let (_, _, fsB) ← downloadAll inp.fancy missing 0 0 fsA
    let (_, _, fsC) ← walkRecent inp.fancy inp.stoppingCriterion created recentDeduped 0 0 fsB
    .ok (deletedWikiPagenames inp.wikiPagenames fsC)

/-- Formalisation of claim C5's wording (not of the code): the set of names
with only a text artifact. -/
def txtOnlyNames (fs : FS) : List String :=
  (dedupNames (localFilenamesTxt fs)).filter (fun n => !((localFilenamesXml fs).contains n))

/-- Formalisation of claim C5's wording (not of the code): the set of names
with only a metadata artifact. -/
def xmlOnlyNames (fs : FS) : List String :=
  (dedupNames (localFilenamesXml fs)).filter (fun n => !((localFilenamesTxt fs).contains n))

/-! ### Concrete scenarios used by the claim checks -/

/-- An empty mirror directory. -/
def emptyFS : FS := { txtFiles := [], xmlFiles := [], attachFiles := [] }

/-- A remote wiki with no pages; used where no fetch is ever reached. -/
def emptyRemote : Remote := { pages := [], fetchFails := [] }

/-- A plain fetchable page with the given timestamp. -/
def rpage (t : Nat) : RemotePage := { text := some "x", timestamp := t, isFilePage := false }

/-- Remote state for the C1 scenario: pages A,B,C,D with descending timestamps. -/
def fancy1 : Remote :=
  { pages := [("A", rpage 10), ("B", rpage 9), ("C", rpage 8), ("D", rpage 7)],
    fetchFails := [] }

/-- Mirror for the C1 scenario: A and C are up to date, B and D are stale. -/
def fs1 : FS :=
  { txtFiles := [("A", "x"), ("B", "x"), ("C", "x"), ("D", "x")],
    xmlFiles := [("A", some 10), ("B", some 1), ("C", some 8), ("D", some 1)],
    attachFiles := [] }

def evA : ChangeEvent := ⟨"A", 10, 1, 1⟩

def evB : ChangeEvent := ⟨"B", 9, 1, 1⟩

def evC : ChangeEvent := ⟨"C", 8, 1, 1⟩

def evD : ChangeEvent := ⟨"D", 7, 1, 1⟩

def created1 : List String := ["A", "B", "C", "D"]

/-- Remote state for the C8 counterexample: pages P,Q,R,S. -/
def fancy8 : Remote :=
  { pages := [("P", rpage 40), ("Q", rpage 30), ("R", rpage 20), ("S", rpage 10)],
    fetchFails := [] }

/-- Mirror for the C8 counterexample: P and R up to date, Q and S stale. -/
def fs8 : FS :=
  { txtFiles := [("P", "x"), ("Q", "x"), ("R", "x"), ("S", "x")],
    xmlFiles := [("P", some 40), ("Q", some 2), ("R", some 20), ("S", some 1)],
    attachFiles := [] }

def ev8P : ChangeEvent := ⟨"P", 40, 1, 1⟩

def ev8Q : ChangeEvent := ⟨"Q", 30, 1, 1⟩

def ev8R : ChangeEvent := ⟨"R", 20, 1, 1⟩

def ev8S : ChangeEvent := ⟨"S", 10, 1, 1⟩

def created8 : List String := ["P", "Q", "R", "S"]

/-- Remote state for the C8 witness scenario. -/
def fancyW8 : Remote :=
  { pages := [("S8", { text := some "s", timestamp := 5, isFilePage := false })],
    fetchFails := [] }

/-- Mirror for the C8 witness scenario: U8 up to date, S8 stale. -/
def fsW8 : FS :=
  { txtFiles := [("U8", "x"), ("S8", "x")],
    xmlFiles := [("U8", some 9), ("S8", some 1)],
    attachFiles := [] }

/-- The mirror after S8 has been re-downloaded in the C8 witness scenario. -/
def fsW8b : FS :=
  { txtFiles := [("U8", "x"), ("S8", "s")],
    xmlFiles := [("U8", some 9), ("S8", some 5)],
    attachFiles := [] }

def evW8u : ChangeEvent := ⟨"U8", 9, 1, 1⟩

def evW8s : ChangeEvent := ⟨"S8", 5, 1, 1⟩

def createdW8 : List String := ["U8", "S8"]

/-- Input for the C9 counterexample: the enumeration lists only A, the mirror is
empty, and a recent change reports page B which exists remotely but is missing
from the enumeration-based name set. -/
def inpC9 : RunInput :=
  { wikiPagenames := ["A"],
    recentChanges := [⟨"B", 5, 1, 2⟩],
    fancy := { pages := [("A", { text := some "a", timestamp := 3, isFilePage := false }),
                         ("B", { text := some "b", timestamp := 5, isFilePage := false })],
               fetchFails := [] },
    fs0 := emptyFS,
    stoppingCriterion := 0 }

/-- Input for the C6 counterexample: the change feed is nonempty (so the run
gets past the `recentWikiPages[-1]` access of `src/FancyDownloader.py:121`),
two pages are missing locally, and the fetch of page N1 raises a transient
network error. -/
def inpC6 : RunInput :=
  { wikiPagenames := ["N1", "N2"],
    recentChanges := [⟨"N2", 4, 1, 2⟩],
    fancy := { pages := [("N2", { text := some "y", timestamp := 4, isFilePage := false })],
               fetchFails := ["N1"] },
    fs0 := emptyFS,
    stoppingCriterion := 500 }

/-- Input for the C6 witness: a nonempty change feed and one missing page whose
fetch fails. -/
def inpC6w : RunInput :=
  { wikiPagenames := ["F6"],
    recentChanges := [⟨"R6", 2, 1, 2⟩],
    fancy := { pages := [], fetchFails := ["F6"] },
    fs0 := emptyFS,
    stoppingCriterion := 500 }

/-- Mirror for the C7 counterexample: page M has a metadata artifact whose
timestamp element is absent. -/
def fsBad : FS := { txtFiles := [("M", "x")], xmlFiles := [("M", none)], attachFiles := [] }

def pdM : ChangeEvent := ⟨"M", 9, 1, 1⟩

/-- Mirror for the C7 witness: same malformed-metadata shape for page M7. -/
def fsBad2 : FS := { txtFiles := [("M7", "x")], xmlFiles := [("M7", none)], attachFiles := [] }

def pd7 : ChangeEvent := ⟨"M7", 3, 1, 1⟩

/-- Two change events for the same page with equal timestamps (C2 tie-break). -/
def e1c2 : ChangeEvent := ⟨"A", 5, 1, 1⟩

def e2c2 : ChangeEvent := ⟨"A", 5, 2, 2⟩

/-- Two change events for the same page with increasing timestamps (C2 witness). -/
def e1w : ChangeEvent := ⟨"A2", 1, 1, 1⟩

def e2w : ChangeEvent := ⟨"A2", 3, 1, 1⟩

/-- Remote state for the C3 witness. -/
def fancy3 : Remote :=
  { pages := [("W3", { text := some "w", timestamp := 9, isFilePage := false })],
    fetchFails := [] }

/-- Mirror for the C3 witness: W3 stored with timestamp 9. -/
def fsC3a : FS := { txtFiles := [("W3", "w")], xmlFiles := [("W3", some 9)], attachFiles := [] }

def pd3 : ChangeEvent := ⟨"W3", 9, 1, 1⟩

/-- Remote state for the C4 witness. -/
def fancy4 : Remote :=
  { pages := [("A4", { text := some "x", timestamp := 7, isFilePage := false })],
    fetchFails := [] }

/-- Mirror for the C4 witness deletion part: B4 is complete locally. -/
def fsDel : FS := { txtFiles := [("B4", "x")], xmlFiles := [("B4", some 1)], attachFiles := [] }

/-- Mirror for the C5 witness: T5 has only a text artifact. -/
def fs5 : FS := { txtFiles := [("T5", "x")], xmlFiles := [], attachFiles := [] }

/-- Mirror for the C10 witness: K stored with timestamp 8. -/
def fs10 : FS := { txtFiles := [("K", "k")], xmlFiles := [("K", some 8)], attachFiles := [] }

def pd10 : ChangeEvent := ⟨"K", 7, 1, 1⟩

/-- Mirror for the C9 witness: A9 is complete locally (and will be deleted). -/
def fs09 : FS := { txtFiles := [("A9", "x")], xmlFiles := [("A9", some 1)], attachFiles := [] }

/-- Directory state at deletion-pass time in the C9 witness: both A9 (from the
snapshot) and B9 (created during the run) are present. -/
def fsRun9 : FS :=
  { txtFiles := [("A9", "x"), ("B9", "b")],
    xmlFiles := [("A9", some 1), ("B9", some 2)],
    attachFiles := [] }

/-! ### Helper lemmas: association lists -/

theorem lookup_append_left {β : Type} (l1 l2 : List (String × β)) (k : String) (v : β)
    (h : l1.lookup k = some v) : (l1 ++ l2).lookup k = some v := by
  induction l1 with
  | nil => simp [List.lookup] at h
  | cons kv rest ih =>
    rw [List.cons_append]
    cases kv with
    | mk a b =>
      rw [List.lookup_cons] at h ⊢
      cases hk : k == a with
      | true => rw [hk] at h; exact h
      | false => rw [hk] at h; exact ih h

theorem lookup_append_right {β : Type} (l1 l2 : List (String × β)) (k : String)
    (h : l1.lookup k = none) : (l1 ++ l2).lookup k = l2.lookup k := by
  induction l1 with
  | nil => rfl
  | cons kv rest ih =>
    rw [List.cons_append]
    cases kv with
    | mk a b =>
      rw [List.lookup_cons] at h ⊢
      cases hk : k == a with
      | true => rw [hk] at h; exact absurd h (by simp)
      | false => rw [hk] at h; exact ih h

theorem lookup_eq_none_iff {β : Type} (l : List (String × β)) (k : String) :
    l.lookup k = none ↔ k ∉ l.map Prod.fst := by
  induction l with
  | nil => simp
  | cons kv rest ih =>
    cases kv with
    | mk a b =>
      rw [List.lookup_cons, List.map_cons, List.mem_cons]
      cases hk : k == a with
      | true =>
        have ha : k = a := by simpa using hk
        simp [ha]
      | false =>
        have ha : ¬ k = a := by simpa using hk
        simp [ha, ih]

theorem lookup_setKey_self {β : Type} (l : List (String × β)) (k : String) (v : β) :
    (setKey l k v).lookup k = (l.lookup k).map (fun _ => v) := by
  induction l with
  | nil => rfl
  | cons kv rest ih =>
    cases kv with
    | mk a b =>
      by_cases ha : a = k
      · subst ha
        simp [setKey, List.lookup_cons, ih]
      · have hk : (k == a) = false := by simp; exact fun h => ha h.symm
        simp only [setKey, List.map_cons] at ih ⊢
        rw [if_neg (by simpa using ha)]
        rw [List.lookup_cons, List.lookup_cons, hk]
        exact ih

theorem lookup_setKey_ne {β : Type} (l : List (String × β)) (k k' : String) (v : β)
    (h : k' ≠ k) : (setKey l k v).lookup k' = l.lookup k' := by
  induction l with
  | nil => rfl
  | cons kv rest ih =>
    cases kv with
    | mk a b =>
      by_cases ha : a = k
      · subst ha
        have hk : (k' == a) = false := by simpa using h
        simp only [setKey, List.map_cons, if_true, eq_self_iff_true] at ih ⊢
        rw [List.lookup_cons, List.lookup_cons, hk]
        exact ih
      · simp only [setKey, List.map_cons] at ih ⊢
        rw [if_neg (by simpa using ha)]
        rw [List.lookup_cons, List.lookup_cons]
        cases hk : k' == a with
        | true => rfl
        | false => exact ih

theorem lookup_removeKey_ne {β : Type} (l : List (String × β)) (k k' : String)
    (h : k' ≠ k) : (removeKey l k).lookup k' = l.lookup k' := by
  induction l with
  | nil => rfl
  | cons kv rest ih =>
    cases kv with
    | mk a b =>
      by_cases ha : a = k
      · subst ha
        have hk : (k' == a) = false := by simpa using h
        simp only [removeKey, List.filter_cons] at ih ⊢
        rw [if_neg (by simp)]
        rw [List.lookup_cons, hk]
        exact ih
      · simp only [removeKey, List.filter_cons] at ih ⊢
        rw [if_pos (by simpa using ha)]
        rw [List.lookup_cons, List.lookup_cons]
        cases hk : k' == a with
        | true => rfl
        | false => exact ih

theorem mem_dedupNames (l : List String) (a : String) : a ∈ dedupNames l ↔ a ∈ l := by
  induction l with
  | nil => simp [dedupNames]
  | cons n rest ih =>
    simp only [dedupNames, List.mem_cons, List.mem_filter, ih]
    by_cases ha : a = n
    · simp [ha]
    · simp [ha]

theorem contains_false_iff (l : List String) (a : String) :
    (l.contains a = false) ↔ a ∉ l := by
  rw [← Bool.not_eq_true]
  exact not_congr List.elem_iff

theorem mem_symDiffNames (a b : List String) (n : String) :
    n ∈ symDiffNames a b ↔ ((n ∈ a ∧ n ∉ b) ∨ (n ∈ b ∧ n ∉ a)) := by
  simp only [symDiffNames, List.mem_append, List.mem_filter, mem_dedupNames,
    Bool.not_eq_true', contains_false_iff]

/-! ### Helper lemmas: name codec round trip -/

theorem decodeChars_cons_ne (c : Char) (rest : List Char) (h : c ≠ ';') :
    decodeChars (c :: rest) = c :: decodeChars rest := by
  match rest with
  | [] => rfl
  | [d] => rfl
  | d :: e :: r =>
    show (if c = ';' ∧ e = ';' then escMap d :: decodeChars r
          else c :: decodeChars (d :: e :: r)) = c :: decodeChars (d :: e :: r)
    rw [if_neg]
    intro hc
    exact h hc.1

theorem decode_encodeChar (c : Char) (rest : List Char) :
    decodeChars (encodeChar c ++ rest) = c :: decodeChars rest := by
  by_cases h0 : c = ';'
  · subst h0; rfl
  · by_cases h1 : c = '*'
    · subst h1; rfl
    · by_cases h2 : c = '/'
      · subst h2; rfl
      · by_cases h3 : c = '?'
        · subst h3; rfl
        · by_cases h4 : c = '"'
          · subst h4; rfl
          · by_cases h5 : c = '<'
            · subst h5; rfl
            · by_cases h6 : c = '>'
              · subst h6; rfl
              · by_cases h7 : c = '\\'
                · subst h7; rfl
                · by_cases h8 : c = '|'
                  · subst h8; rfl
                  · by_cases h9 : c = ':'
                    · subst h9; rfl
                    · have he : encodeChar c = [c] := by
                        simp [encodeChar, h0, h1, h2, h3, h4, h5, h6, h7, h8, h9]
                      rw [he]
                      exact decodeChars_cons_ne c rest h0

theorem decode_encode_data (l : List Char) :
    decodeChars ((l.map encodeChar).flatten) = l := by
  induction l with
  | nil => rfl
  | cons c l ih =>
    rw [List.map_cons, List.flatten_cons, decode_encodeChar, ih]

theorem codec_roundTrip (s : String) :
    WindowsFilenameToWikiPagename (WikiPagenameToWindowsFilename s) = s := by
  cases s with
  | mk data =>
    show String.mk (decodeChars ((data.map encodeChar).flatten)) = String.mk data
    rw [decode_encode_data]

theorem encode_injective (a b : String)
    (h : WikiPagenameToWindowsFilename a = WikiPagenameToWindowsFilename b) : a = b := by
  have h2 := congrArg WindowsFilenameToWikiPagename h
  rwa [codec_roundTrip, codec_roundTrip] at h2

/-! ### Helper lemmas: the deduplicator -/

theorem lookup_dedupInsert (d : List (String × ChangeEvent)) (p : ChangeEvent) (n : String) :
    (dedupInsert d p).lookup n =
      if p.title = n then
        (match d.lookup n with
         | none => some p
         | some q => if q.timestamp < p.timestamp then some p else some q)
      else d.lookup n := by
  unfold dedupInsert
  by_cases ht : p.title = n
  · subst ht
    rw [if_pos rfl]
    cases hd : d.lookup p.title with
    | none =>
      simp only [hd]
      rw [lookup_append_right d _ _ hd]
      simp [List.lookup_cons]
    | some q =>
      simp only [hd]
      by_cases hts : q.timestamp < p.timestamp
      · rw [if_pos hts, if_pos hts]
        rw [lookup_setKey_self, hd]
        rfl
      · rw [if_neg hts, if_neg hts]
        exact hd
  · rw [if_neg ht]
    cases hd : d.lookup p.title with
    | none =>
      simp only [hd]
      cases hdn : d.lookup n with
      | none =>
        rw [lookup_append_right d _ _ hdn]
        rw [List.lookup_cons]
        have hne : (n == p.title) = false := by simp; exact fun h => ht h.symm
        rw [hne]
        rfl
      | some v => exact lookup_append_left d _ _ _ hdn
    | some q =>
      simp only [hd]
      by_cases hts : q.timestamp < p.timestamp
      · rw [if_pos hts]
        exact lookup_setKey_ne d p.title n p (fun h => ht h.symm)
      · rw [if_neg hts]

theorem lookup_foldl_dedupInsert (es : List ChangeEvent) (d : List (String × ChangeEvent))
    (n : String) :
    (es.foldl dedupInsert d).lookup n =
      latestKept (d.lookup n) (es.filter (fun e => e.title == n)) := by
  induction es generalizing d with
  | nil => rfl
  | cons p es ih =>
    rw [List.foldl_cons, ih]
    by_cases ht : p.title = n
    · have hb : (p.title == n) = true := by simpa using ht
      rw [List.filter_cons, hb, if_pos rfl]
      rw [lookup_dedupInsert, if_pos ht]
      cases hd : d.lookup n with
      | none => simp [latestKept]
      | some q =>
        simp only [hd]
        by_cases hts : q.timestamp < p.timestamp
        · simp [latestKept, hts]
        · simp [latestKept, hts]
    · have hb : (p.title == n) = false := by simpa using ht
      rw [List.filter_cons, hb, if_neg (by simp)]
      rw [lookup_dedupInsert, if_neg ht]

theorem keys_setKey {β : Type} (l : List (String × β)) (k : String) (v : β) :
    (setKey l k v).map Prod.fst = l.map Prod.fst := by
  induction l with
  | nil => rfl
  | cons kv rest ih =>
    simp only [setKey, List.map_cons] at ih ⊢
    by_cases ha : kv.1 = k
    · rw [if_pos ha, ih, ha]
    · rw [if_neg ha, ih]

theorem keys_dedupInsert_nodup (d : List (String × ChangeEvent)) (p : ChangeEvent)
    (h : (d.map Prod.fst).Nodup) : ((dedupInsert d p).map Prod.fst).Nodup := by
  unfold dedupInsert
  cases hd : d.lookup p.title with
  | none =>
    simp only [hd]
    rw [List.map_append]
    have hnm : p.title ∉ d.map Prod.fst := (lookup_eq_none_iff d p.title).mp hd
    simp [List.nodup_append, h, hnm]
  | some q =>
    simp only [hd]
    by_cases hts : q.timestamp < p.timestamp
    · rw [if_pos hts, keys_setKey]; exact h
    · rw [if_neg hts]; exact h

theorem keys_foldl_dedupInsert_nodup (es : List ChangeEvent) (d : List (String × ChangeEvent))
    (h : (d.map Prod.fst).Nodup) : ((es.foldl dedupInsert d).map Prod.fst).Nodup := by
  induction es generalizing d with
  | nil => exact h
  | cons p es ih =>
    rw [List.foldl_cons]
    exact ih _ (keys_dedupInsert_nodup d p h)

theorem latestKept_spec (l : List ChangeEvent) (cur : Option ChangeEvent) (e : ChangeEvent)
    (h : latestKept cur l = some e) :
    (cur = some e ∨ e ∈ l)
    ∧ (∀ c, cur = some c → c.timestamp ≤ e.timestamp)
    ∧ (∀ x ∈ l, x.timestamp ≤ e.timestamp) := by
  induction l generalizing cur with
  | nil =>
    simp only [latestKept] at h
    exact ⟨Or.inl h, fun c hc => by rw [hc] at h; cases h; exact le_refl _, by simp⟩
  | cons x l ih =>
    cases cur with
    | none =>
      simp only [latestKept] at h
      obtain ⟨h1, h2, h3⟩ := ih (some x) h
      refine ⟨?_, by simp, ?_⟩
      · cases h1 with
        | inl hx => cases hx; exact Or.inr (List.mem_cons_self _ _)
        | inr hm => exact Or.inr (List.mem_cons_of_mem _ hm)
      · intro y hy
        cases List.mem_cons.mp hy with
        | inl hyx => rw [hyx]; exact h2 x rfl
        | inr hyl => exact h3 y hyl
    | some c =>
      simp only [latestKept] at h
      by_cases hts : c.timestamp < x.timestamp
      · rw [if_pos hts] at h
        obtain ⟨h1, h2, h3⟩ := ih (some x) h
        have hxe : x.timestamp ≤ e.timestamp := h2 x rfl
        refine ⟨?_, ?_, ?_⟩
        · cases h1 with
          | inl hx => cases hx; exact Or.inr (List.mem_cons_self _ _)
          | inr hm => exact Or.inr (List.mem_cons_of_mem _ hm)
        · intro c2 hc2; cases hc2; exact le_of_lt (lt_of_lt_of_le hts hxe)
        · intro y hy
          cases List.mem_cons.mp hy with
          | inl hyx => rw [hyx]; exact hxe
          | inr hyl => exact h3 y hyl
      · rw [if_neg hts] at h
        obtain ⟨h1, h2, h3⟩ := ih (some c) h
        have hce : c.timestamp ≤ e.timestamp := h2 c rfl
        refine ⟨?_, ?_, ?_⟩
        · cases h1 with
          | inl hx => exact Or.inl hx
          | inr hm => exact Or.inr (List.mem_cons_of_mem _ hm)
        · intro c2 hc2; cases hc2; exact hce
        · intro y hy
          cases List.mem_cons.mp hy with
          | inl hyx => rw [hyx]; exact le_trans (not_lt.mp hts) hce
          | inr hyl => exact h3 y hyl

/-! ### Helper lemmas: the recency walk -/

theorem walkRecent_cons_skip (fancy : Remote) (sc : Nat) (created : List String)
    (p : ChangeEvent) (rest : List ChangeEvent) (cd cu : Nat) (fs fs1 : FS)
    (hc : created.contains p.title = true)
    (hdl : DownloadPage fancy fs p.title (some p) = .ok (false, fs1))
    (hlt : ¬ (0 < sc ∧ sc < cu + 1)) :
    walkRecent fancy sc created (p :: rest) cd cu fs =
      walkRecent fancy sc created rest cd (cu + 1) fs1 := by
  simp only [walkRecent, hc, hdl, if_true, if_neg hlt]

theorem walkRecent_cons_break (fancy : Remote) (sc : Nat) (created : List String)
    (p : ChangeEvent) (rest : List ChangeEvent) (cd cu : Nat) (fs fs1 : FS)
    (hc : created.contains p.title = true)
    (hdl : DownloadPage fancy fs p.title (some p) = .ok (false, fs1))
    (hlt : 0 < sc ∧ sc < cu + 1) :
    walkRecent fancy sc created (p :: rest) cd cu fs = .ok (cd, cu + 1, fs1) := by
  simp only [walkRecent, hc, hdl, if_true, if_pos hlt]

theorem walkRecent_cons_fetch (fancy : Remote) (sc : Nat) (created : List String)
    (p : ChangeEvent) (rest : List ChangeEvent) (cd cu : Nat) (fs fs1 : FS)
    (hc : created.contains p.title = true)
    (hdl : DownloadPage fancy fs p.title (some p) = .ok (true, fs1)) :
    walkRecent fancy sc created (p :: rest) cd cu fs =
      walkRecent fancy sc created rest (cd + 1) cu fs1 := by
  simp only [walkRecent, hc, hdl, if_true]

theorem walkRecent_skips (fancy : Remote) (sc : Nat) (created : List String) (fs : FS)
    (ups : List ChangeEvent) :
    ∀ (rest : List ChangeEvent) (cd cu : Nat),
    (∀ p ∈ ups, created.contains p.title = true ∧
        DownloadPage fancy fs p.title (some p) = .ok (false, fs)) →
    cu + ups.length ≤ sc →
    walkRecent fancy sc created (ups ++ rest) cd cu fs =
      walkRecent fancy sc created rest cd (cu + ups.length) fs := by
  induction ups with
  | nil =>
    intro rest cd cu hups hle
    simp
  | cons p ups ih =>
    intro rest cd cu hups hle
    obtain ⟨hc, hdl⟩ := hups p (List.mem_cons_self _ _)
    rw [List.length_cons] at hle
    rw [List.cons_append]
    rw [walkRecent_cons_skip fancy sc created p (ups ++ rest) cd cu fs fs hc hdl (by omega)]
    rw [ih rest cd (cu + 1) (fun q hq => hups q (List.mem_cons_of_mem _ hq)) (by omega)]
    have harith : cu + 1 + ups.length = cu + (ups.length + 1) := by omega
    rw [harith, List.length_cons]

theorem walkRecent_stops (fancy : Remote) (sc : Nat) (created : List String) (fs : FS)
    (ups : List ChangeEvent) :
    ∀ (rest : List ChangeEvent) (cd cu : Nat),
    (∀ p ∈ ups, created.contains p.title = true ∧
        DownloadPage fancy fs p.title (some p) = .ok (false, fs)) →
    0 < sc → cu + ups.length = sc + 1 → cu ≤ sc →
    walkRecent fancy sc created (ups ++ rest) cd cu fs = .ok (cd, sc + 1, fs) := by
  induction ups with
  | nil =>
    intro rest cd cu hups hsc hlen hcu
    simp at hlen
    omega
  | cons p ups ih =>
    intro rest cd cu hups hsc hlen hcu
    obtain ⟨hc, hdl⟩ := hups p (List.mem_cons_self _ _)
    rw [List.length_cons] at hlen
    rw [List.cons_append]
    by_cases hstop : cu = sc
    · rw [walkRecent_cons_break fancy sc created p (ups ++ rest) cd cu fs fs hc hdl (by omega)]
      rw [hstop]
    · rw [walkRecent_cons_skip fancy sc created p (ups ++ rest) cd cu fs fs hc hdl (by omega)]
      exact ih rest cd (cu + 1) (fun q hq => hups q (List.mem_cons_of_mem _ hq)) hsc
        (by omega) (by omega)

/-! ### Helper lemmas: DownloadPage and the deletion pass -/

theorem isSkip_doDownload (fancy : Remote) (fs : FS) (n f : String) :
    isSkip (doDownload fancy fs n f) = false := by
  unfold doDownload
  split
  · rfl
  · cases hp : fancy.pages.lookup n with
    | none => rfl
    | some page => rfl

theorem isSkip_DownloadPage_none (fancy : Remote) (fs : FS) (n : String) :
    isSkip (DownloadPage fancy fs n none) = false :=
  isSkip_doDownload fancy fs n (WikiPagenameToWindowsFilename n)

theorem deleteOne_frame (fs : FS) (k f : String) (h : f ≠ k) :
    ((deleteOne fs k).2.txtFiles.lookup f = fs.txtFiles.lookup f)
    ∧ ((deleteOne fs k).2.xmlFiles.lookup f = fs.xmlFiles.lookup f) := by
  simp only [deleteOne]
  constructor <;>
  · split <;> split <;> simp [lookup_removeKey_ne _ _ _ h]

theorem deletePages_frame (names : List String) (f : String) :
    ∀ (cd cu : Nat) (fs : FS),
    (∀ m ∈ names, WikiPagenameToWindowsFilename m ≠ f) →
    (deletePages names cd cu fs).2.2.txtFiles.lookup f = fs.txtFiles.lookup f
    ∧ (deletePages names cd cu fs).2.2.xmlFiles.lookup f = fs.xmlFiles.lookup f := by
  induction names with
  | nil =>
    intro cd cu fs h
    exact ⟨rfl, rfl⟩
  | cons m names ih =>
    intro cd cu fs h
    have hm : f ≠ WikiPagenameToWindowsFilename m :=
      fun hh => h m (List.mem_cons_self _ _) hh.symm
    obtain ⟨d1, d2⟩ := deleteOne_frame fs (WikiPagenameToWindowsFilename m) f hm
    have hrest : ∀ x ∈ names, WikiPagenameToWindowsFilename x ≠ f :=
      fun x hx => h x (List.mem_cons_of_mem _ hx)
    simp only [deletePages]
    split
    · obtain ⟨t1, t2⟩ := ih (cd + 1) cu (deleteOne fs (WikiPagenameToWindowsFilename m)).2 hrest
      exact ⟨t1.trans d1, t2.trans d2⟩
    · obtain ⟨t1, t2⟩ := ih cd (cu + 1) (deleteOne fs (WikiPagenameToWindowsFilename m)).2 hrest
      exact ⟨t1.trans d1, t2.trans d2⟩

/-! ### Claim theorems -/

/-- C1: the claim states that the up-to-date counter of the recency walk counts
only consecutive up-to-date results and resets to zero on every fetch, so that
in the scenario (stoppingCriterion 1, recency list A up-to-date / B stale /
C up-to-date / D stale) the fetch of B would restart the count and stale D would
be fetched.  The code (src/FancyDownloader.py:201-215) never resets
countUpToDatePages, contradicting the script's own comment at line 194
("Run until we have encountered stoppingCriterion consecutive pages that don't
need updates"): this evaluation shows the walk downloads only B (first count),
counts A and C cumulatively (second count 2 > 1) and stops, leaving D's
metadata at its stale timestamp 1. -/
theorem c1_counter_never_reset :
    (walkRecent fancy1 1 created1 [evA, evB, evC, evD] 0 0 fs1).toOption.map
        (fun r => (r.1, r.2.1, r.2.2.xmlFiles.lookup "D"))
      = some (1, 2, some (some 1)) := rfl

/-- C2 counterexample: the claim says equal-timestamp duplicates are resolved
last-wins, but the dedup loop (src/FancyDownloader.py:109, strict `>`)
keeps the first arrival: for two events for page A with equal timestamp 5 the
kept event is the first one, not the later one. -/
theorem c2_tie_counterexample :
    (deduplicate [e1c2, e2c2]).lookup "A" = some e1c2 ∧ e1c2 ≠ e2c2 :=
  ⟨rfl, by decide⟩

/-- C2 as amended: the Deduplicator keeps exactly one event per distinct
documentName (the key list is duplicate-free), the entry kept for a name is
`latestKept` of that name's events — the FIRST arrival attaining the maximal
timestamp, so equal timestamps are resolved first-wins, not last-wins — and
the kept event is one of the inputs for that name whose timestamp dominates
every input timestamp for that name. -/
theorem c2_dedup (events : List ChangeEvent) (n : String) :
    ((deduplicate events).map Prod.fst).Nodup
    ∧ (deduplicate events).lookup n = latestKept none (events.filter (fun e => e.title == n))
    ∧ (∀ e, (deduplicate events).lookup n = some e →
        e ∈ events ∧ e.title = n ∧ ∀ x ∈ events, x.title = n → x.timestamp ≤ e.timestamp) := by
  refine ⟨keys_foldl_dedupInsert_nodup events [] (by simp), ?_, ?_⟩
  · exact lookup_foldl_dedupInsert events [] n
  · intro e he
    simp only [deduplicate] at he
    rw [lookup_foldl_dedupInsert events [] n] at he
    obtain ⟨h1, _, h3⟩ := latestKept_spec _ none e he
    have hmem : e ∈ events.filter (fun x => x.title == n) := by
      cases h1 with
      | inl hone => exact absurd hone (by simp)
      | inr hm => exact hm
    have hm := List.mem_filter.mp hmem
    refine ⟨hm.1, by simpa using hm.2, ?_⟩
    intro x hx htitle
    exact h3 x (List.mem_filter.mpr ⟨hx, by simpa using htitle⟩)

/-- C2 witness: applying `c2_dedup` to the concrete event list
`[e1w, e2w]` (same page, timestamps 1 then 3): the kept event is `e2w`, it is
an input event for page A2 and its timestamp dominates `e1w`'s. -/
theorem c2_dedup_witness :
    e2w ∈ [e1w, e2w] ∧ e2w.title = "A2" ∧ e1w.timestamp ≤ e2w.timestamp := by
  have h := (c2_dedup [e1w, e2w] "A2").2.2 e2w rfl
  exact ⟨h.1, h.2.1, h.2.2 e1w (by simp) rfl⟩

/-- C3: the staleness decision of `DownloadPage` with change data present
(src/FancyDownloader.py:322-340).  When the local metadata artifact exists and
stores a timestamp, the skip path is taken exactly when the remote timestamp is
less than or equal to the stored one — i.e. a fetch happens iff
remoteTimestamp > localTimestamp, so equal timestamps are judged up to date and
never re-fetched; when no local metadata artifact exists the skip path is never
taken and the download is always attempted. -/
theorem c3_staleness (fancy : Remote) (fs : FS) (name : String) (pd : ChangeEvent) :
    (∀ lt : Nat, fs.xmlFiles.lookup (WikiPagenameToWindowsFilename name) = some (some lt) →
      (isSkip (DownloadPage fancy fs name (some pd)) = true ↔ pd.timestamp ≤ lt))
    ∧ (fs.xmlFiles.lookup (WikiPagenameToWindowsFilename name) = none →
      isSkip (DownloadPage fancy fs name (some pd)) = false) := by
  constructor
  · intro lt hx
    unfold DownloadPage
    simp only [hx]
    by_cases hts : pd.timestamp ≤ lt
    · simp [isSkip, hts]
    · rw [if_neg hts, isSkip_doDownload]
      simp [hts]
  · intro hx
    unfold DownloadPage
    simp only [hx]
    exact isSkip_doDownload fancy fs name (WikiPagenameToWindowsFilename name)

/-- C3 witness: for page W3 stored locally with timestamp 9 and a remote change
of timestamp 9 the decision is "up to date" (skip); with no local metadata the
decision is "fetch". -/
theorem c3_staleness_witness :
    isSkip (DownloadPage fancy3 fsC3a "W3" (some pd3)) = true
    ∧ isSkip (DownloadPage fancy3 emptyFS "W3" (some pd3)) = false :=
  ⟨((c3_staleness fancy3 fsC3a "W3" pd3).1 9 rfl).mpr (by decide),
   (c3_staleness fancy3 emptyFS "W3" pd3).2 rfl⟩

/-- C7 counterexample: the claim says an existing metadata artifact with an
undefined/unparseable timestamp field is treated as missing and forces a fetch;
the code instead raises: `doc.find("timestamp")` returns None and the `.text`
access at src/FancyDownloader.py:333 raises AttributeError, which no caller
handles.  At the concrete input (page M whose xml lacks a timestamp element)
`DownloadPage` evaluates to that error, not to a fetch. -/
theorem c7_raises_counterexample :
    DownloadPage fancy1 fsBad "M" (some pdM) = .error (.badMetadata "M") := rfl

/-- C7 as amended: whenever the local metadata artifact exists but its
timestamp field is absent, `DownloadPage` with change data raises the
AttributeError (modelled as `DlError.badMetadata`) instead of fetching; only a
wholly missing metadata artifact forces the fetch. -/
theorem c7_badMetadata_raises (fancy : Remote) (fs : FS) (name : String) (pd : ChangeEvent)
    (hx : fs.xmlFiles.lookup (WikiPagenameToWindowsFilename name) = some none) :
    DownloadPage fancy fs name (some pd) =
      .error (.badMetadata (WikiPagenameToWindowsFilename name)) := by
  unfold DownloadPage
  simp only [hx]

/-- C7 witness: the amended statement applied to page M7 whose metadata
artifact lacks a timestamp element. -/
theorem c7_badMetadata_raises_witness :
    DownloadPage emptyRemote fsBad2 "M7" (some pd7) = .error (.badMetadata "M7") :=
  c7_badMetadata_raises emptyRemote fsBad2 "M7" pd7 rfl

/-- C10: on the up-to-date skip path (change data present, metadata artifact
present with a stored timestamp, remote timestamp not greater), `DownloadPage`
returns `False` and the returned directory state is exactly the input state:
no artifact of any document is written, overwritten or deleted
(src/FancyDownloader.py:339-340 returns before any file operation). -/
theorem c10_skip_frame (fancy : Remote) (fs : FS) (name : String) (pd : ChangeEvent) (lt : Nat)
    (hx : fs.xmlFiles.lookup (WikiPagenameToWindowsFilename name) = some (some lt))
    (hts : pd.timestamp ≤ lt) :
    DownloadPage fancy fs name (some pd) = .ok (false, fs) := by
  unfold DownloadPage
  simp only [hx, if_pos hts]

/-- C10 witness: page K stored with timestamp 8, remote change with timestamp 7:
the call returns `False` and the directory is unchanged. -/
theorem c10_skip_frame_witness :
    DownloadPage emptyRemote fs10 "K" (some pd10) = .ok (false, fs10) :=
  c10_skip_frame emptyRemote fs10 "K" pd10 8 rfl (by decide)

/-- C4: the reconciliation sets of src/FancyDownloader.py:161-169 — a name is
missing iff it is on the wiki but not among the names inferred from complete
local records, and deleted iff inferred locally complete but not on the wiki;
and a missing page is downloaded with `pageData = None`
(src/FancyDownloader.py:181), a call that can never take the up-to-date skip
path, i.e. it is fetched unconditionally with no staleness comparison. -/
theorem c4_reconciliation (wiki : List String) (fs : FS) (n : String) :
    (n ∈ missingLocalPagenames wiki fs ↔ n ∈ wiki ∧ n ∉ localPagenames fs)
    ∧ (n ∈ deletedWikiPagenames wiki fs ↔ n ∈ localPagenames fs ∧ n ∉ wiki)
    ∧ (∀ fancy : Remote, isSkip (DownloadPage fancy fs n none) = false) := by
  refine ⟨?_, ?_, fun fancy => isSkip_DownloadPage_none fancy fs n⟩
  · simp only [missingLocalPagenames, List.mem_filter, mem_dedupNames,
      Bool.not_eq_true', contains_false_iff]
  · simp only [deletedWikiPagenames, List.mem_filter,
      Bool.not_eq_true', contains_false_iff]

/-- C4 witness: with an empty mirror and wiki set A4, the page A4 is missing
and its download call bypasses the staleness check; with wiki set empty and B4
complete locally, B4 is in the deleted set. -/
theorem c4_reconciliation_witness :
    "A4" ∈ missingLocalPagenames ["A4"] emptyFS
    ∧ "B4" ∈ deletedWikiPagenames [] fsDel
    ∧ isSkip (DownloadPage fancy4 emptyFS "A4" none) = false := by
  refine ⟨?_, ?_, ?_⟩
  · exact (c4_reconciliation ["A4"] emptyFS "A4").1.mpr ⟨by decide, by decide⟩
  · exact (c4_reconciliation [] fsDel "B4").2.1.mpr ⟨by decide, by decide⟩
  · exact (c4_reconciliation ["A4"] emptyFS "A4").2.2 fancy4

set_option maxHeartbeats 1000000 in
/-- C5: membership in `partialLocalFilenames` (src/FancyDownloader.py:148-149)
coincides with membership in the symmetric difference of the text-only and
metadata-only name sets with the log/report prefix filter applied, and every
such name is downloaded with `pageData = None` (src/FancyDownloader.py:157),
a call that can never take the up-to-date skip path — the staleness comparison
is bypassed entirely. -/
theorem c5_incomplete (fs : FS) (n : String) :
    (n ∈ incompleteLocalFilenames fs ↔
      n ∈ symDiffNames (txtOnlyNames fs) (xmlOnlyNames fs) ∧ isLogFile n = false)
    ∧ (∀ fancy : Remote, isSkip (DownloadPage fancy fs n none) = false) := by
  refine ⟨?_, fun fancy => isSkip_DownloadPage_none fancy fs n⟩
  have hlhs : n ∈ incompleteLocalFilenames fs ↔
      (((n ∈ localFilenamesTxt fs ∧ n ∉ localFilenamesXml fs)
        ∨ (n ∈ localFilenamesXml fs ∧ n ∉ localFilenamesTxt fs)) ∧ isLogFile n = false) := by
    simp only [incompleteLocalFilenames, incompleteLocalFilenamesRaw, List.mem_filter,
      mem_symDiffNames, Bool.not_eq_true']
  have hrhs : n ∈ symDiffNames (txtOnlyNames fs) (xmlOnlyNames fs) ↔
      ((n ∈ localFilenamesTxt fs ∧ n ∉ localFilenamesXml fs)
        ∨ (n ∈ localFilenamesXml fs ∧ n ∉ localFilenamesTxt fs)) := by
    simp only [mem_symDiffNames, txtOnlyNames, xmlOnlyNames, List.mem_filter,
      mem_dedupNames, Bool.not_eq_true', contains_false_iff]
    constructor
    · rintro (⟨h1, _⟩ | ⟨h1, _⟩)
      · exact Or.inl h1
      · exact Or.inr h1
    · rintro (h1 | h1)
      · exact Or.inl ⟨h1, fun h2 => h1.2 h2.1⟩
      · exact Or.inr ⟨h1, fun h2 => h1.2 h2.1⟩
  rw [hlhs, hrhs]

/-- C5 witness: page T5 has only a text artifact, so it is in the
incomplete-download set, and its forced download bypasses the staleness
comparison. -/
theorem c5_incomplete_witness :
    "T5" ∈ incompleteLocalFilenames fs5
    ∧ isSkip (DownloadPage emptyRemote fs5 "T5" none) = false := by
  constructor
  · exact (c5_incomplete fs5 "T5").1.mpr ⟨by decide, by decide⟩
  · exact (c5_incomplete fs5 "T5").2 emptyRemote

/-- C6 counterexample: the claim says a transient fetch failure for one
document never aborts the run, the process completes all passes and exits 0.
In the code no caller of `DownloadPage` catches exceptions
(src/FancyDownloader.py:181-185; the only handler in `main` wraps the
`allpages` enumeration at lines 80-88).  At the concrete input the change feed
is nonempty — so the run gets past the `recentWikiPages[-1]` access at line
121 — pages N1 and N2 are both missing locally, and N1's fetch raises a
network error: the whole run evaluates to that error instead of completing,
i.e. the process dies with a traceback, not exit 0.  (The abort does not
depend on Python's arbitrary iteration order over the missing set: N2's fetch
succeeds and N1's always raises, so every order ends in the same uncaught
error before `main` can complete its passes.) -/
theorem c6_abort_counterexample :
    mainRun inpC6 = .error (.network "N1")
    ∧ "N1" ∈ missingLocalPagenames inpC6.wikiPagenames inpC6.fs0
    ∧ "N2" ∈ missingLocalPagenames inpC6.wikiPagenames inpC6.fs0 :=
  ⟨rfl, by decide, by decide⟩

/-- C6 as amended: a transient fetch failure raised during a document's fetch
propagates out of `DownloadPage` through `main` uncaught and aborts the run:
whenever the deduplicated change feed is nonempty (so line 121 does not raise
first), the incomplete-download set is empty and the fetch of the first
missing page raises, the entire run evaluates to that error and no later pass
(remaining missing pages, recency walk, deletion pass) is executed. -/
theorem c6_failure_propagates (inp : RunInput) (e : DlError) (n : String) (rest : List String)
    (hfeed : ¬ (sortByTimestampDesc ((deduplicate inp.recentChanges).map Prod.snd)).isEmpty = true)
    (hinc : incompleteLocalFilenames inp.fs0 = [])
    (hmiss : missingLocalPagenames inp.wikiPagenames inp.fs0 = n :: rest)
    (hfail : DownloadPage inp.fancy inp.fs0 n none = .error e) :
    mainRun inp = .error e := by
  unfold mainRun
  rw [if_neg hfeed]
  simp only [hinc, hmiss, downloadAll, Bind.bind, Except.bind, hfail]

/-- C6 witness: the amended statement applied to a run with a nonempty change
feed whose only missing page F6 fails with a network error. -/
theorem c6_failure_propagates_witness :
    mainRun inpC6w = .error (.network "F6") :=
  c6_failure_propagates inpC6w (.network "F6") "F6" [] (by decide) rfl rfl rfl

/-- C8 counterexample: the claim quantifies over every recency-ordered list
containing a run of exactly `stoppingCriterion` consecutive up-to-date
documents followed by one stale document.  With `stoppingCriterion = 1` and
the list P (up to date), Q (stale), R (up to date), S (stale), the run [R] has
length exactly 1 and is followed by stale S, so the claim requires S to be
fetched; because the counter is cumulative (src/FancyDownloader.py:209-215),
the walk counts P and R together, stops at R (2 > 1) and never fetches S:
only one page (Q) is downloaded and S's metadata stays at timestamp 1. -/
theorem c8_boundary_counterexample :
    (walkRecent fancy8 1 created8 [ev8P, ev8Q, ev8R, ev8S] 0 0 fs8).toOption.map
        (fun r => (r.1, r.2.1, r.2.2.xmlFiles.lookup "S"))
      = some (1, 2, some (some 1)) := rfl

/-- C8 as amended: the off-by-one boundary of src/FancyDownloader.py:210
(`0 < stoppingCriterion < countUpToDatePages`) holds when no up-to-date result
precedes the run, i.e. the walk starts at the run: a walk over exactly
`stoppingCriterion` up-to-date documents followed by one stale document
reaches and fetches the stale document, while `stoppingCriterion + 1`
up-to-date documents stop the walk before the stale document is reached. -/
theorem c8_boundary (sc : Nat) (fancy : Remote) (fs fs1 : FS) (created : List String)
    (ups : List ChangeEvent) (stale : ChangeEvent)
    (hsc : 0 < sc)
    (hups : ∀ p ∈ ups, created.contains p.title = true ∧
        DownloadPage fancy fs p.title (some p) = .ok (false, fs))
    (hst : created.contains stale.title = true)
    (hfetch : DownloadPage fancy fs stale.title (some stale) = .ok (true, fs1)) :
    (ups.length = sc →
      walkRecent fancy sc created (ups ++ [stale]) 0 0 fs = .ok (1, sc, fs1))
    ∧ (ups.length = sc + 1 →
      walkRecent fancy sc created (ups ++ [stale]) 0 0 fs = .ok (0, sc + 1, fs)) := by
  constructor
  · intro hlen
    rw [walkRecent_skips fancy sc created fs ups [stale] 0 0 hups (by omega)]
    rw [walkRecent_cons_fetch fancy sc created stale [] 0 (0 + ups.length) fs fs1 hst hfetch]
    rw [hlen]
    simp [walkRecent]
  · intro hlen
    exact walkRecent_stops fancy sc created fs ups [stale] 0 0 hups hsc (by omega) (by omega)

/-- C8 witness: with `stoppingCriterion = 1`, one up-to-date page U8 followed by
the stale page S8, the walk reaches and downloads S8. -/
theorem c8_boundary_witness :
    walkRecent fancyW8 1 createdW8 [evW8u, evW8s] 0 0 fsW8 = .ok (1, 1, fsW8b) := by
  have hups : ∀ p ∈ [evW8u], createdW8.contains p.title = true ∧
      DownloadPage fancyW8 fsW8 p.title (some p) = .ok (false, fsW8) := by
    intro p hp
    rw [List.mem_singleton] at hp
    subst hp
    exact ⟨rfl, rfl⟩
  exact (c8_boundary 1 fancyW8 fsW8 fsW8b createdW8 [evW8u] evW8s (by decide) hups rfl rfl).1 rfl

/-- C9 counterexample: the claim says the deletion pass operates on a local
inventory snapshot taken after all fetches of the run.  In the code the
directory is listed once, before any download (src/FancyDownloader.py:140-141),
and the deletion set is computed from that pre-fetch snapshot
(src/FancyDownloader.py:169).  At the concrete input the two disagree: the
recency walk downloads page B (listed by the change feed but absent from the
enumeration-based name set), the code's deletion set is empty and B's record
survives, while the post-fetch-snapshot deletion set demanded by the claim
would be the singleton B — applying the claim's snapshot rule would delete the
record the run just created, contradicting the claim's own conclusion. -/
theorem c9_snapshot_counterexample :
    deletedWikiPagenames inpC9.wikiPagenames inpC9.fs0 = []
    ∧ deletedNamesPostFetch inpC9 = .ok ["B"]
    ∧ (mainRun inpC9).toOption.map
        (fun r => (r.fs.txtFiles.lookup "B", r.fs.xmlFiles.lookup "B"))
      = some (some "b", some (some 5)) :=
  ⟨rfl, rfl, rfl⟩

/-- C9 as amended: the deletion pass operates on the local inventory snapshot
taken before any fetch of the run, and precisely because of that a record
created by a fetch earlier in the same run is never deleted by that run's
deletion pass: a name that was not complete in the pre-run snapshot is not in
the deletion set, and the deletion pass leaves that name's `.txt` and `.xml`
artifacts exactly as the download passes left them. -/
theorem c9_presnapshot_safe (wiki : List String) (fs0 fsRun : FS) (cd cu : Nat) (n : String)
    (h : n ∉ localPagenames fs0) :
    n ∉ deletedWikiPagenames wiki fs0
    ∧ (deletePages (deletedWikiPagenames wiki fs0) cd cu fsRun).2.2.txtFiles.lookup
        (WikiPagenameToWindowsFilename n)
      = fsRun.txtFiles.lookup (WikiPagenameToWindowsFilename n)
    ∧ (deletePages (deletedWikiPagenames wiki fs0) cd cu fsRun).2.2.xmlFiles.lookup
        (WikiPagenameToWindowsFilename n)
      = fsRun.xmlFiles.lookup (WikiPagenameToWindowsFilename n) := by
  have hdel : ∀ m ∈ deletedWikiPagenames wiki fs0, m ∈ localPagenames fs0 := by
    intro m hm
    exact (List.mem_filter.mp hm).1
  have hnotin : n ∉ deletedWikiPagenames wiki fs0 := fun hmem => h (hdel n hmem)
  have henc : ∀ m ∈ deletedWikiPagenames wiki fs0,
      WikiPagenameToWindowsFilename m ≠ WikiPagenameToWindowsFilename n := by
    intro m hm heq
    have hmn : m = n := encode_injective m n heq
    rw [hmn] at hm
    exact hnotin hm
  obtain ⟨t1, t2⟩ := deletePages_frame (deletedWikiPagenames wiki fs0)
      (WikiPagenameToWindowsFilename n) cd cu fsRun henc
  exact ⟨hnotin, t1, t2⟩

/-- C9 witness: pre-run snapshot has only A9 complete and the wiki set is
empty, so A9 is deleted; page B9, created during the run, is not in the
deletion set and its artifacts survive the deletion pass unchanged. -/
theorem c9_presnapshot_safe_witness :
    "B9" ∉ deletedWikiPagenames [] fs09
    ∧ (deletePages (deletedWikiPagenames [] fs09) 0 0 fsRun9).2.2.txtFiles.lookup
        (WikiPagenameToWindowsFilename "B9")
      = fsRun9.txtFiles.lookup (WikiPagenameToWindowsFilename "B9")
    ∧ (deletePages (deletedWikiPagenames [] fs09) 0 0 fsRun9).2.2.xmlFiles.lookup
        (WikiPagenameToWindowsFilename "B9")
      = fsRun9.xmlFiles.lookup (WikiPagenameToWindowsFilename "B9") :=
  c9_presnapshot_safe [] fs09 fsRun9 0 0 "B9" (by decide)

end FancyDownloader
